import Mathlib

/-!
Verification of the AI-Observer core against its natural-language
specification.  The TypeScript sources (EventBus, StorageManager,
CopilotAdapter, CopilotChatMonitor) are shallowly embedded as executable Lean
definitions; each spec claim is settled by a theorem about those definitions.

JavaScript strings are modelled as Lean `String`s, with the string primitives
the program uses (`length`, `includes`, `trim`, `join`, `endsWith`) defined
structurally over the character list so that concrete runs reduce in the
kernel.  JS `Map`/`Set` values are modelled as insertion-ordered association
lists, matching JS iteration order.  `crypto.randomUUID()` is modelled as a
fresh-name supply driven by a counter threaded through the state: each call
returns a name never returned before.
-/

set_option maxHeartbeats 1000000

namespace AIObserver

/-- JS `s.length` (string length).  JS counts UTF-16 code units; the texts the
program inspects are modelled at character granularity. -/
def jsLength (s : String) : Nat := s.data.length

/-- JS `s.includes(c)` for a single character. -/
def jsContainsChar (s : String) (c : Char) : Bool := s.data.contains c

/-- JS whitespace for `String.prototype.trim` (the characters occurring in
this program's data are covered: space, tab, LF, CR, FF, VT, NBSP). -/
def jsWhitespace (c : Char) : Bool :=
  c = ' ' || c = '\t' || c = '\n' || c = '\r' ||
  c = '\x0b' || c = '\x0c' || c = ' '

/-- JS `s.trim()`: strip leading and trailing whitespace. -/
def jsTrim (s : String) : String :=
  ⟨((s.data.dropWhile jsWhitespace).reverse.dropWhile jsWhitespace).reverse⟩

/-- JS `parts.join(sep)` / chunk joining. -/
def jsJoin (sep : String) (parts : List String) : String :=
  ⟨(List.intersperse sep.data (parts.map String.data)).flatten⟩

/-- JS `s.endsWith(suffix)`. -/
def jsEndsWith (s suffix : String) : Bool :=
  suffix.data.isSuffixOf s.data

/-- JS `Math.round(x)` on a real (here rational) argument: `⌊x + 1/2⌋`. -/
def jsRound (x : ℚ) : ℤ := ⌊x + 1/2⌋

/-- JS `arr.slice(-n)`.  For `n = 0`, `-0 === 0` so `slice(0)` returns the
whole array; for `n > 0` the start index is `length - n` clamped at `0`. -/
def jsSliceLast (l : List α) (n : Nat) : List α :=
  if n = 0 then l else l.drop (l.length - n)

/-- The suffix of length `n` of a list (the whole list when shorter). -/
def lastN (n : Nat) (l : List α) : List α :=
  l.drop (l.length - n)

/-- The fresh-name supply standing in for `crypto.randomUUID()`. -/
def mkUUID (n : Nat) : String := "uuid-" ++ toString n

/-- Auxiliary metadata attached by the chat monitor (original request id,
session id, source transcript path). -/
structure ChatMetadata where
  requestId : Option String
  sessionId : Option String
  sourcePath : String
  deriving DecidableEq

/-- The unit of record persisted by the store (`AIInteraction` in src/types).
Timestamps are integral epoch milliseconds, so they are modelled as `Int`. -/
structure AIInteraction where
  id : String
  timestamp : Int
  type : String
  prompt : String
  response : String
  language : String
  filePath : String
  accepted : Bool
  latency : Nat
  modelName : String
  lineNumber : Nat
  characterCount : Nat
  metadata : Option ChatMetadata := none
  deriving DecidableEq

/-- A concrete interaction for witness theorems, carrying the given latency
and acceptance flag. -/
def mkInteraction (lang : String) (lat : Nat) (acc : Bool) : AIInteraction :=
  { id := "i", timestamp := 0, type := "completion", prompt := "p",
    response := "r", language := lang, filePath := "f.ts", accepted := acc,
    latency := lat, modelName := "copilot", lineNumber := 1,
    characterCount := 1 }

namespace StorageManager

/-- `StorageManager.saveInteraction`, restricted to its effect on the
in-memory list: push the new interaction, then trim with `slice(-max)` when
the length exceeds `maxInteractions`. -/
def saveInteractionStep (max : Nat) (l : List AIInteraction)
    (i : AIInteraction) : List AIInteraction :=
  let pushed := l ++ [i]
  if pushed.length > max then jsSliceLast pushed max else pushed

/-- The in-memory list after a sequence of `saveInteraction` calls starting
from list `l`. -/
def saveAll (max : Nat) (l : List AIInteraction) (apps : List AIInteraction) :
    List AIInteraction :=
  apps.foldl (saveInteractionStep max) l

/-- The states the backing file can be in when `StorageManager.load` runs:
absent, present but with `JSON.parse` throwing, present with a non-array
parse, or a parsed array of interactions. -/
inductive LoadInput
  | absent
  | unparsable
  | nonArray
  | array (l : List AIInteraction)

/-- The console message each `load` path produces. -/
inductive LoadLog
  | freshStart
  | readOrParseFailed
  | malformed
  | loaded (n : Nat)
  deriving DecidableEq

/-- `StorageManager.load`: resulting in-memory list and log message for each
backing-file state.  Every path returns; no path throws. -/
def load (max : Nat) : LoadInput → List AIInteraction × LoadLog
  | .absent => ([], .freshStart)
  | .unparsable => ([], .readOrParseFailed)
  | .nonArray => ([], .malformed)
  | .array l =>
      let kept := if l.length > max then jsSliceLast l max else l
      (kept, .loaded kept.length)

/-- The primitive steps a `StorageManager` method performs, in program order.
`awaitLoad` is `await this.ensureLoaded()`; `readCache`/`mutateCache` are
reads/writes of `this.interactions`. -/
inductive StoreStep
  | startLoad
  | awaitLoad
  | logStep
  | readCache
  | mutateCache
  | mkdirStep
  | diskWrite
  deriving DecidableEq

/-- The constructor: initialises fields and kicks off the asynchronous
`load()`, caching its promise (it does not await it). -/
def constructorTrace : List StoreStep := [.startLoad]

/-- `save()`: mkdir, stringify the cached list (a read), write the file. -/
def saveTrace : List StoreStep := [.mkdirStep, .readCache, .diskWrite]

/-- `saveInteraction`: await the load, log, push (and possibly trim) the
cache, then persist.  `trimmed` records whether the cap trim fired. -/
def saveInteractionTrace (trimmed : Bool) : List StoreStep :=
  [.awaitLoad, .logStep, .mutateCache] ++
    (if trimmed then [.mutateCache] else []) ++ saveTrace

/-- `clearLogs`: await the load, reset the cache, persist. -/
def clearLogsTrace : List StoreStep := [.awaitLoad, .mutateCache] ++ saveTrace

/-- `exportLogs`: await the load, mkdir, then depending on the extension
either serialise the cache to the target file or only log a warning. -/
def exportLogsTrace (ext : String) : List StoreStep :=
  [.awaitLoad, .mkdirStep] ++
    (if ext = ".json" then [.readCache, .diskWrite]
     else if ext = ".csv" then [.readCache, .diskWrite]
     else [.logStep])

/-- Does the step touch the in-memory interaction cache? -/
def touchesCache : StoreStep → Bool
  | .readCache => true
  | .mutateCache => true
  | _ => false

/-- `true` iff no cache access occurs before the first `awaitLoad` of the
trace (accesses after an `awaitLoad` are fine). -/
def cacheAccessAwaited : List StoreStep → Bool
  | [] => true
  | .awaitLoad :: _ => true
  | s :: rest => !touchesCache s && cacheAccessAwaited rest

/-- One step of the JS `Map` insertion-order count tally
(`languageCounts.set(lang, (languageCounts.get(lang) ?? 0) + 1)`): an
existing key keeps its position, a new key is appended. -/
def bumpLanguage : List (String × Nat) → String → List (String × Nat)
  | [], lang => [(lang, 1)]
  | (l, c) :: rest, lang =>
      if l = lang then (l, c + 1) :: rest else (l, c) :: bumpLanguage rest lang

/-- Language occurrence counts in first-encounter order
(`getAnalytics`'s `languageCounts` map). -/
def languageCounts (l : List AIInteraction) : List (String × Nat) :=
  l.foldl (fun m i => bumpLanguage m i.language) []

/-- Insert into a count-descending list: the new element goes after every
element with a count ≥ its own, exactly as the stable JS
`sort((a, b) => b.count - a.count)` keeps ties in original order. -/
def insertByCountDesc (x : String × Nat) :
    List (String × Nat) → List (String × Nat)
  | [] => [x]
  | y :: ys => if x.2 > y.2 then x :: y :: ys else y :: insertByCountDesc x ys

/-- Stable sort by count descending (JS `Array.prototype.sort` is stable). -/
def sortByCountDesc (l : List (String × Nat)) : List (String × Nat) :=
  l.foldl (fun acc x => insertByCountDesc x acc) []

/-- `getAnalytics().topLanguages`: counts in first-encounter order, stably
sorted by count descending, first five kept. -/
def topLanguages (l : List AIInteraction) : List (String × Nat) :=
  (sortByCountDesc (languageCounts l)).take 5

/-- `getAnalytics().averageLatency`: `0` when empty, else
`Math.round(sum / total)`. -/
def averageLatency (l : List AIInteraction) : ℤ :=
  if l.length = 0 then 0
  else jsRound ((l.map fun i => (i.latency : ℚ)).sum / (l.length : ℚ))

/-- `getAnalytics().acceptanceRate`: `0` when empty, else
`Math.round((accepted / total) * 100)`. -/
def acceptanceRate (l : List AIInteraction) : ℤ :=
  if l.length = 0 then 0
  else jsRound (((l.filter fun i => i.accepted).length : ℚ) /
    (l.length : ℚ) * 100)

end StorageManager

namespace EventBus

/-- One registered callback, abstracted by its observable behaviour: the side
effects it performs in order, then an exception it may throw at the end. -/
structure Listener where
  effects : List Nat
  failure : Option String

/-- Events observable while `emit` runs: a listener side effect, or the
`console.error` issued by `emit`'s per-listener catch. -/
inductive BusEvent
  | act (tag : Nat)
  | log (msg : String)
  deriving DecidableEq

/-- The listener registry (JS `Map` keyed by event type); `emit` looks up the
array registered for the topic, absent topics meaning no listeners. -/
def listenersFor (bus : List (String × List Listener)) (topic : String) :
    List Listener :=
  match bus.lookup topic with
  | some ls => ls
  | none => []

/-- Running one callback unwrapped: its effects happen, then its exception
(if any) is raised. -/
def rawExec (l : Listener) : List BusEvent × Option String :=
  (l.effects.map .act, l.failure)

/-- The wrapping `emit` puts around each callback
(`try { await listener(data) } catch (error) { console.error(...) }`):
a raised exception is converted into a log event and not re-raised. -/
def wrappedExec (l : Listener) : List BusEvent × Option String :=
  match rawExec l with
  | (tr, none) => (tr, none)
  | (tr, some msg) => (tr ++ [.log msg], none)

/-- Awaiting a sequence of executions, as `Promise.all` over the single JS
thread: if an execution raises an uncaught exception, the remaining
executions' effects are lost and the exception propagates to the caller. -/
def runSeq : List (List BusEvent × Option String) →
    List BusEvent × Option String
  | [] => ([], none)
  | (tr, some e) :: _ => (tr, some e)
  | (tr, none) :: rest =>
      let r := runSeq rest
      (tr ++ r.1, r.2)

/-- `EventBus.emit`: run every listener registered for the topic, each one
wrapped in the try/catch. -/
def emit (bus : List (String × List Listener)) (topic : String) :
    List BusEvent × Option String :=
  runSeq ((listenersFor bus topic).map wrappedExec)

/-- What one listener contributes to the event trace: its effects, plus the
catch's log entry when it failed. -/
def listenerContribution (l : Listener) : List BusEvent :=
  l.effects.map .act ++
    match l.failure with
    | none => []
    | some msg => [.log msg]

end EventBus

namespace CopilotAdapter

/-- `isLikelyAI` classification from `CopilotAdapter.onTextChange`:
`change.text.length > 20 && (change.text.includes('\n') || change.text.length > 50)`. -/
def isLikelyAI (text : String) : Bool :=
  jsLength text > 20 && (jsContainsChar text '\n' || jsLength text > 50)

/-- A tracked pending suggestion (`pendingSuggestions` map value; the
`document` reference is represented by its URI inside the key). -/
structure PendingSuggestion where
  id : String
  startTime : Int
  contextBefore : String
  line : Nat
  deriving DecidableEq

/-- Adapter state: the pending-suggestion map in JS `Map` insertion order,
plus the fresh-name counter for `randomUUID`. -/
structure AdapterState where
  pending : List (String × PendingSuggestion)
  uuidCounter : Nat
  deriving DecidableEq

/-- The empty adapter state. -/
def initialAdapterState : AdapterState := ⟨[], 0⟩

/-- JS `Map.set`: an existing key keeps its position and gets the new value;
a new key is appended. -/
def mapSet (m : List (String × PendingSuggestion)) (k : String)
    (v : PendingSuggestion) : List (String × PendingSuggestion) :=
  match m with
  | [] => [(k, v)]
  | (k', v') :: rest =>
      if k' = k then (k, v) :: rest else (k', v') :: mapSet rest k v

/-- `CopilotAdapter.onSelectionChange` (the running, editor-present path):
store a fresh `PendingSuggestion` under `uri-line`, then sweep every entry
whose age exceeds 30 000 ms. -/
def onSelectionChange (uri : String) (line : Nat) (contextBefore : String)
    (now : Int) (st : AdapterState) : AdapterState :=
  let key := uri ++ "-" ++ toString line
  let entry : PendingSuggestion :=
    ⟨mkUUID st.uuidCounter, now, contextBefore, line⟩
  let afterSet := mapSet st.pending key entry
  let swept := afterSet.filter fun e => !(now - e.2.startTime > 30000)
  ⟨swept, st.uuidCounter + 1⟩

/-- `CopilotAdapter.onEditorChange` (running path): clear all pending
entries. -/
def onEditorChange (st : AdapterState) : AdapterState :=
  ⟨[], st.uuidCounter⟩

/-- `CopilotAdapter.getStats().pendingSuggestions`: the map size; querying
performs no sweep. -/
def pendingCount (st : AdapterState) : Nat := st.pending.length

/-- Whether the map currently holds an entry older than the 30 s
time-to-live when read at time `now`. -/
def holdsStaleEntry (st : AdapterState) (now : Int) : Bool :=
  st.pending.any fun e => now - e.2.startTime > 30000

end CopilotAdapter

namespace CopilotChatMonitor

/-- One heterogeneous content part of a transcript `response` array.  Each
field holds `some s` exactly when the corresponding JS access yields a
string: `kind` for `part.kind`, `pastTenseMessage` for the presence of
`part.pastTenseMessage` and then its `.value`, `content` for the entries'
`.value` of a present `part.content` array, `value`/`text` for the top-level
fallback fields. -/
structure ChatPart where
  kind : Option String
  pastTenseMessage : Option (Option String)
  content : Option (List (Option String))
  value : Option String
  text : Option String
  deriving DecidableEq

/-- The strings one part contributes to the response chunks
(`CopilotChatMonitor.extractResponseText` loop body). -/
def partChunks (p : ChatPart) : List String :=
  if p.kind = some "toolInvocationSerialized" then
    match p.pastTenseMessage with
    | some (some v) => [v]
    | _ => []
  else if p.kind = some "markdown" then
    match p.content with
    | some entries => entries.filterMap id
    | none => []
  else
    match p.value with
    | some v => [v]
    | none =>
      match p.text with
      | some t => [t]
      | none => []

/-- `CopilotChatMonitor.extractResponseText`: recovered chunks joined with a
blank line and trimmed. -/
def extractResponseText (parts : List ChatPart) : String :=
  jsTrim (jsJoin "\n\n" (parts.map partChunks).flatten)

/-- One request record of a session document (`ChatRequestRecord`).
`timestamp` is `some t` when the JS value is a finite number; `response` is
`none` when the field is absent (the code then substitutes `[]`). -/
structure ChatRequest where
  requestId : Option String
  messageText : Option String
  response : Option (List ChatPart)
  timestamp : Option Int
  modelId : Option String
  deriving DecidableEq

/-- A parsed session document (`ChatSessionDocument`).  The two date strings
are modelled by their `Date.parse` results: `some t` when parsing yields a
valid time, `none` when absent or `NaN`.  `requests` is `none` when the field
is not an array. -/
structure ChatDoc where
  sessionId : Option String
  creationDate : Option Int
  lastMessageDate : Option Int
  requests : Option (List ChatRequest)
  deriving DecidableEq

/-- One file of the transcript directory: its base name and its parse result
(`none` when unreadable or `JSON.parse` throws). -/
structure ChatFile where
  name : String
  doc : Option ChatDoc
  deriving DecidableEq

/-- Monitor state: the processed-key set in JS `Set` insertion order, plus
the fresh-name counter for `randomUUID`. -/
structure MonitorState where
  processed : List String
  uuidCounter : Nat
  deriving DecidableEq

/-- The state a freshly constructed monitor starts from. -/
def initialMonitorState : MonitorState := ⟨[], 0⟩

/-- JS `Set.add`: a member is kept in place, a new key is appended. -/
def setAdd (s : List String) (k : String) : List String :=
  if s.contains k then s else s ++ [k]

/-- `CopilotChatMonitor.cullProcessed`: once the set exceeds 5 000 entries,
delete the oldest-inserted entries down to the cap. -/
def cullProcessed (s : List String) : List String :=
  if s.length ≤ 5000 then s else s.drop (s.length - 5000)

/-- `CopilotChatMonitor.resolveTimestamp`: the request's own finite numeric
timestamp, else the parsed last-message date, else the parsed creation date,
else the current time. -/
def resolveTimestamp (request : ChatRequest) (doc : ChatDoc) (now : Int) :
    Int :=
  match request.timestamp with
  | some t => t
  | none =>
    match doc.lastMessageDate with
    | some p => p
    | none =>
      match doc.creationDate with
      | some p => p
      | none => now

/-- The composite identity of a request in `fileName`, together with the
state after the identity computation (`randomUUID()` is consumed when the
record has no `requestId`). -/
def requestKey (fileName : String) (st : MonitorState) (r : ChatRequest) :
    String × MonitorState :=
  match r.requestId with
  | some rid => (fileName ++ ":" ++ rid, st)
  | none => (fileName ++ ":" ++ mkUUID st.uuidCounter,
             { st with uuidCounter := st.uuidCounter + 1 })

/-- The body of `processSession`'s per-request loop: skip already-processed
keys; skip (but mark) records with empty prompt and response; otherwise build
and emit the interaction, mark the key, and cull the set. -/
def processRequest (fileName : String) (fullPath : String) (doc : ChatDoc)
    (now : Int) (st : MonitorState) (r : ChatRequest) :
    MonitorState × List AIInteraction :=
  let (uniqueId, st) := requestKey fileName st r
  if st.processed.contains uniqueId then (st, [])
  else
    let prompt := jsTrim (r.messageText.getD "")
    let response := extractResponseText (r.response.getD [])
    if prompt = "" ∧ response = "" then
      ({ st with processed := setAdd st.processed uniqueId }, [])
    else
      let interaction : AIInteraction :=
        { id := mkUUID st.uuidCounter,
          timestamp := resolveTimestamp r doc now,
          type := "chat", prompt := prompt, response := response,
          language := "markdown", filePath := "copilot-chat",
          accepted := true, latency := 0,
          modelName := r.modelId.getD "copilot-chat",
          lineNumber := 0, characterCount := jsLength response,
          metadata := some ⟨r.requestId, doc.sessionId, fullPath⟩ }
      ({ st with
           processed := cullProcessed (setAdd st.processed uniqueId),
           uuidCounter := st.uuidCounter + 1 },
       [interaction])

/-- `processSession` over one file: unreadable or unparsable files and
documents without a request array are skipped silently. -/
def processSession (dir : String) (now : Int) (st : MonitorState)
    (file : ChatFile) : MonitorState × List AIInteraction :=
  match file.doc with
  | none => (st, [])
  | some doc =>
    match doc.requests with
    | none => (st, [])
    | some requests =>
      requests.foldl
        (fun acc r =>
          let out := processRequest file.name (dir ++ "/" ++ file.name) doc
            now acc.1 r
          (out.1, acc.2 ++ out.2))
        (st, [])

/-- `scanSessions`: process every directory entry whose name ends in
`.json`, accumulating the emitted interactions. -/
def scanSessions (dir : String) (now : Int) (files : List ChatFile)
    (st : MonitorState) : MonitorState × List AIInteraction :=
  (files.filter fun f => jsEndsWith f.name ".json").foldl
    (fun acc f =>
      let out := processSession dir now acc.1 f
      (out.1, acc.2 ++ out.2))
    (st, [])

/-- The number of request records one file contributes to a scan. -/
def fileReqCount (f : ChatFile) : Nat :=
  match f.doc with
  | none => 0
  | some doc =>
    match doc.requests with
    | none => 0
    | some requests => requests.length

/-- The number of request records a scan of `files` walks over. -/
def totalRequests (files : List ChatFile) : Nat :=
  ((files.filter fun f => jsEndsWith f.name ".json").map fileReqCount).sum

/-- Structural recursion equivalent of `processSession`'s request fold
(state threading plus emission concatenation), used by the dedup proofs. -/
def runReqs (fn fp : String) (doc : ChatDoc) (now : Int) :
    MonitorState → List ChatRequest → MonitorState × List AIInteraction
  | st, [] => (st, [])
  | st, r :: rs =>
    let out := processRequest fn fp doc now st r
    let rest := runReqs fn fp doc now out.1 rs
    (rest.1, out.2 ++ rest.2)

/-- Structural recursion equivalent of `scanSessions`'s file fold. -/
def runFiles (dir : String) (now : Int) :
    MonitorState → List ChatFile → MonitorState × List AIInteraction
  | st, [] => (st, [])
  | st, f :: fs =>
    let out := processSession dir now st f
    let rest := runFiles dir now out.1 fs
    (rest.1, out.2 ++ rest.2)

end CopilotChatMonitor

end AIObserver

namespace AIObserver

theorem jsSliceLast_pos (l : List α) (n : Nat) (h : 0 < n) :
    jsSliceLast l n = lastN n l := by
  simp [jsSliceLast, lastN, Nat.pos_iff_ne_zero.mp h]

theorem lastN_eq_reverse_take (n : Nat) (l : List α) :
    lastN n l = (l.reverse.take n).reverse := by
  have := List.rtake_eq_reverse_take_reverse (l := l) (n := n)
  simpa [List.rtake, lastN] using this

theorem length_lastN (n : Nat) (l : List α) :
    (lastN n l).length = min n l.length := by
  simp only [lastN, List.length_drop]
  omega

theorem lastN_of_le {n : Nat} {l : List α} (h : l.length ≤ n) :
    lastN n l = l := by
  simp [lastN, Nat.sub_eq_zero_of_le h]

theorem take_append_take (n : Nat) (a b : List α) :
    (a ++ b.take n).take n = (a ++ b).take n := by
  rw [List.take_append_eq_append_take, List.take_append_eq_append_take,
    List.take_take, Nat.min_eq_left (Nat.sub_le n a.length)]

theorem lastN_append_lastN (n : Nat) (xs ys : List α) :
    lastN n (lastN n xs ++ ys) = lastN n (xs ++ ys) := by
  rw [lastN_eq_reverse_take n xs, lastN_eq_reverse_take, lastN_eq_reverse_take,
    List.reverse_append, List.reverse_reverse, List.reverse_append,
    take_append_take]

namespace StorageManager

theorem saveInteractionStep_eq (max : Nat) (hm : 0 < max)
    (l : List AIInteraction) (i : AIInteraction) :
    saveInteractionStep max l i = lastN max (l ++ [i]) := by
  unfold saveInteractionStep
  by_cases hlen : (l ++ [i]).length > max
  · simp only [hlen, if_pos, gt_iff_lt, if_true]
    exact jsSliceLast_pos _ _ hm
  · simp only [hlen, if_neg, if_false]
    exact (lastN_of_le (by omega)).symm

theorem saveAll_eq (max : Nat) (hm : 0 < max) :
    ∀ (apps : List AIInteraction) (l : List AIInteraction), l.length ≤ max →
      saveAll max l apps = lastN max (l ++ apps) := by
  intro apps
  induction apps with
  | nil => intro l h; simp [saveAll, lastN_of_le h]
  | cons a as ih =>
    intro l h
    have hstep : saveInteractionStep max l a = lastN max (l ++ [a]) :=
      saveInteractionStep_eq max hm l a
    have hlen : (saveInteractionStep max l a).length ≤ max := by
      rw [hstep, length_lastN]; omega
    calc saveAll max l (a :: as)
        = saveAll max (saveInteractionStep max l a) as := rfl
      _ = lastN max (saveInteractionStep max l a ++ as) := ih _ hlen
      _ = lastN max (lastN max (l ++ [a]) ++ as) := by rw [hstep]
      _ = lastN max ((l ++ [a]) ++ as) := lastN_append_lastN max _ as
      _ = lastN max (l ++ a :: as) := by simp

end StorageManager

/-- C2: starting from any loaded state (length within the cap, positive cap),
after every `saveInteraction` call the in-memory list has length at most
`maxInteractions`, and the retained elements are exactly the most recently
appended suffix of the full append sequence (oldest dropped first). -/
theorem c2_cap_invariant (max : Nat) (l0 : List AIInteraction)
    (hm : 0 < max) (h0 : l0.length ≤ max) :
    ∀ apps : List AIInteraction,
      (StorageManager.saveAll max l0 apps).length ≤ max ∧
      StorageManager.saveAll max l0 apps = lastN max (l0 ++ apps) := by
  intro apps
  have h := StorageManager.saveAll_eq max hm apps l0 h0
  refine ⟨?_, h⟩
  rw [h, length_lastN]
  omega

/-- Witness for C2 at a concrete cap and append sequence. -/
theorem c2_cap_invariant_witness :
    0 < 2 ∧ ([] : List AIInteraction).length ≤ 2 ∧
      ((StorageManager.saveAll 2 []
        [mkInteraction "a" 1 true, mkInteraction "b" 2 true,
         mkInteraction "c" 3 true]).length ≤ 2 ∧
       StorageManager.saveAll 2 []
        [mkInteraction "a" 1 true, mkInteraction "b" 2 true,
         mkInteraction "c" 3 true] =
        lastN 2 ([] ++
          [mkInteraction "a" 1 true, mkInteraction "b" 2 true,
           mkInteraction "c" 3 true])) :=
  ⟨by decide, by decide,
    c2_cap_invariant 2 [] (by decide) (by decide)
      [mkInteraction "a" 1 true, mkInteraction "b" 2 true,
       mkInteraction "c" 3 true]⟩

namespace EventBus

theorem runSeq_wrapped (ls : List Listener) :
    runSeq (ls.map wrappedExec) =
      ((ls.map listenerContribution).flatten, none) := by
  induction ls with
  | nil => rfl
  | cons l rest ih =>
    cases hf : l.failure <;>
      simp [wrappedExec, rawExec, runSeq, listenerContribution, ih, hf]

end EventBus

/-- C5: `emit` never propagates an exception to the publisher, and the trace
it returns after settling contains, in registration order, every registered
handler's side effects — a raising handler contributes its effects plus a
log entry and never suppresses the handlers after it. -/
theorem c5_emit_isolation (bus : List (String × List EventBus.Listener))
    (topic : String) :
    (EventBus.emit bus topic).2 = none ∧
    (EventBus.emit bus topic).1 =
      ((EventBus.listenersFor bus topic).map
        EventBus.listenerContribution).flatten := by
  unfold EventBus.emit
  rw [EventBus.runSeq_wrapped]
  exact ⟨rfl, rfl⟩

/-- C6: `load` recovers from every backing-file state without throwing: a
missing file and every malformed read give the empty list (with the logged
message of that path), and an array longer than the configured cap (always
positive; the program uses 10000) is truncated to its most recent `max`
entries — a suffix (tail) of the parsed array. -/
theorem c6_load_resilience (max : Nat) (hm : 0 < max) :
    StorageManager.load max .absent = ([], .freshStart) ∧
    StorageManager.load max .unparsable = ([], .readOrParseFailed) ∧
    StorageManager.load max .nonArray = ([], .malformed) ∧
    ∀ l : List AIInteraction,
      (StorageManager.load max (.array l)).1 =
        (if l.length > max then lastN max l else l) ∧
      (StorageManager.load max (.array l)).1 <:+ l := by
  refine ⟨rfl, rfl, rfl, fun l => ?_⟩
  have hkept : (StorageManager.load max (.array l)).1 =
      if l.length > max then jsSliceLast l max else l := rfl
  rw [hkept]
  by_cases h : l.length > max
  · have e : jsSliceLast l max = lastN max l := jsSliceLast_pos _ _ hm
    rw [if_pos h, if_pos h, e]
    exact ⟨rfl, List.drop_suffix _ _⟩
  · rw [if_neg h, if_neg h]
    exact ⟨rfl, List.suffix_refl l⟩

/-- Witness for C6 at the concrete cap 2. -/
theorem c6_load_resilience_witness :
    0 < 2 ∧
      (StorageManager.load 2 .absent = ([], .freshStart) ∧
       StorageManager.load 2 .unparsable = ([], .readOrParseFailed) ∧
       StorageManager.load 2 .nonArray = ([], .malformed) ∧
       ∀ l : List AIInteraction,
         (StorageManager.load 2 (.array l)).1 =
           (if l.length > 2 then lastN 2 l else l) ∧
         (StorageManager.load 2 (.array l)).1 <:+ l) :=
  ⟨by decide, c6_load_resilience 2 (by decide)⟩

/-- C7: construction starts the asynchronous load, and the
`saveInteraction`, `clearLogs` and `exportLogs` traces perform no read or
mutation of the in-memory cache before their `awaitLoad` step. -/
theorem c7_init_ordering :
    StorageManager.StoreStep.startLoad ∈ StorageManager.constructorTrace ∧
    (∀ trimmed, StorageManager.cacheAccessAwaited
      (StorageManager.saveInteractionTrace trimmed) = true) ∧
    StorageManager.cacheAccessAwaited StorageManager.clearLogsTrace = true ∧
    ∀ ext, StorageManager.cacheAccessAwaited
      (StorageManager.exportLogsTrace ext) = true := by
  exact ⟨by decide, fun _ => rfl, rfl, fun _ => rfl⟩

/-- C8: `averageLatency` is the rounded mean latency (`0` on the empty list)
and `acceptanceRate` the rounded percentage of accepted interactions (`0` on
the empty list); latencies `[100, 200, 300]` average to `200` and 3 accepted
out of 4 give `75`. -/
theorem c8_analytics :
    StorageManager.averageLatency [] = 0 ∧
    StorageManager.acceptanceRate [] = 0 ∧
    (∀ l : List AIInteraction,
      StorageManager.averageLatency l =
        (if l.length = 0 then 0
         else jsRound ((l.map fun i => (i.latency : ℚ)).sum / l.length)) ∧
      StorageManager.acceptanceRate l =
        (if l.length = 0 then 0
         else jsRound (((l.filter fun i => i.accepted).length : ℚ) /
           l.length * 100))) ∧
    StorageManager.averageLatency
      [mkInteraction "ts" 100 true, mkInteraction "ts" 200 true,
       mkInteraction "ts" 300 true] = 200 ∧
    StorageManager.acceptanceRate
      [mkInteraction "ts" 10 true, mkInteraction "ts" 20 true,
       mkInteraction "ts" 30 true, mkInteraction "ts" 40 false] = 75 := by
  refine ⟨rfl, rfl, fun l => ⟨rfl, rfl⟩, ?_, ?_⟩ <;>
    norm_num [StorageManager.averageLatency, StorageManager.acceptanceRate,
      jsRound, mkInteraction, List.filter]

/-- C3: the heuristic classifies an inserted span as assistant-originated iff
it is multi-line and longer than 20 characters, or single-line and longer
than 50 characters; in particular 21 `x`s on one line are not classified,
51 `x`s on one line are, and every multi-line span longer than 20 characters
is. -/
theorem c3_heuristic_thresholds :
    (∀ s : String, CopilotAdapter.isLikelyAI s = true ↔
      ((jsContainsChar s '\n' = true ∧ jsLength s > 20) ∨
       (jsContainsChar s '\n' = false ∧ jsLength s > 50))) ∧
    CopilotAdapter.isLikelyAI (String.mk (List.replicate 21 'x')) = false ∧
    CopilotAdapter.isLikelyAI (String.mk (List.replicate 51 'x')) = true := by
  refine ⟨fun s => ?_, by decide, by decide⟩
  constructor
  · intro h
    simp only [CopilotAdapter.isLikelyAI, Bool.and_eq_true, Bool.or_eq_true,
      decide_eq_true_eq] at h
    rcases h with ⟨h20, hnl | h50⟩
    · exact Or.inl ⟨hnl, h20⟩
    · cases hc : jsContainsChar s '\n'
      · exact Or.inr ⟨rfl, h50⟩
      · exact Or.inl ⟨rfl, h20⟩
  · intro h
    simp only [CopilotAdapter.isLikelyAI, Bool.and_eq_true, Bool.or_eq_true,
      decide_eq_true_eq]
    rcases h with ⟨hnl, h20⟩ | ⟨hnl, h50⟩
    · exact ⟨h20, Or.inl hnl⟩
    · exact ⟨by omega, Or.inr h50⟩

/-- C4 counterexample: a pending suggestion created at time 0 with no
matching edit is still in the map when it is read at time 31000 ms — no
selection change occurred in between, and reading (`getStats`) performs no
sweep, so the map does hold an entry older than the 30 s window. -/
theorem c4_pending_expiry_counterexample :
    CopilotAdapter.pendingCount
      (CopilotAdapter.onSelectionChange "file:///a.ts" 5 "ctx" 0
        CopilotAdapter.initialAdapterState) = 1 ∧
    CopilotAdapter.holdsStaleEntry
      (CopilotAdapter.onSelectionChange "file:///a.ts" 5 "ctx" 0
        CopilotAdapter.initialAdapterState) 31000 = true := by
  decide

/-- C4 amended: stale entries are evicted only by the sweep run on each
selection-change transition (or wholesale by an editor switch), not by the
passage of time or by queries: immediately after any selection change at
time `now`, no held entry is older than 30 s, and an editor switch empties
the map. -/
theorem c4_pending_expiry_amended :
    (∀ (uri : String) (line : Nat) (ctx : String) (now : Int)
        (st : CopilotAdapter.AdapterState),
      ∀ e ∈ (CopilotAdapter.onSelectionChange uri line ctx now st).pending,
        now - e.2.startTime ≤ 30000) ∧
    ∀ st : CopilotAdapter.AdapterState,
      (CopilotAdapter.onEditorChange st).pending = [] := by
  refine ⟨fun uri line ctx now st e he => ?_, fun st => rfl⟩
  have := (List.mem_filter.mp he).2
  simpa using this

/-- Witness for the amended C4 at a concrete sweep: a selection change at
time 40000 over a map holding an entry from time 0 leaves only the fresh
entry, whose age is within the window. -/
theorem c4_pending_expiry_amended_witness :
    (40000 : Int) -
      (CopilotAdapter.PendingSuggestion.mk (mkUUID 0) 40000 "c" 5).startTime
      ≤ 30000 :=
  c4_pending_expiry_amended.1 "u" 5 "c" 40000
    ⟨[("u-5", ⟨"old", 0, "old-ctx", 5⟩)], 0⟩
    ("u-5", ⟨mkUUID 0, 40000, "c", 5⟩) (by decide)

namespace StorageManager

theorem mem_insertByCountDesc (x b : String × Nat) :
    ∀ l : List (String × Nat),
      (b ∈ insertByCountDesc x l ↔ b = x ∨ b ∈ l)
  | [] => by simp [insertByCountDesc]
  | y :: ys => by
    by_cases h : x.2 > y.2
    · rw [insertByCountDesc, if_pos h]
      simp [or_comm, or_assoc, or_left_comm]
    · rw [insertByCountDesc, if_neg h]
      simp only [List.mem_cons, mem_insertByCountDesc x b ys]
      tauto

theorem insertByCountDesc_perm (x : String × Nat) :
    ∀ l : List (String × Nat), (insertByCountDesc x l).Perm (x :: l)
  | [] => List.Perm.refl _
  | y :: ys => by
    by_cases h : x.2 > y.2
    · rw [insertByCountDesc, if_pos h]
    · rw [insertByCountDesc, if_neg h]
      exact ((insertByCountDesc_perm x ys).cons y).trans
        (List.Perm.swap x y ys)

theorem pairwise_insertByCountDesc (x : String × Nat) :
    ∀ l : List (String × Nat), l.Pairwise (fun a b => b.2 ≤ a.2) →
      (insertByCountDesc x l).Pairwise (fun a b => b.2 ≤ a.2)
  | [], _ => by simp [insertByCountDesc]
  | y :: ys, hp => by
    rcases List.pairwise_cons.mp hp with ⟨hy, hys⟩
    by_cases h : x.2 > y.2
    · rw [insertByCountDesc, if_pos h]
      refine List.pairwise_cons.mpr ⟨?_, hp⟩
      intro b hb
      rcases List.mem_cons.mp hb with rfl | hb
      · omega
      · have := hy b hb; omega
    · rw [insertByCountDesc, if_neg h]
      refine List.pairwise_cons.mpr
        ⟨?_, pairwise_insertByCountDesc x ys hys⟩
      intro b hb
      rcases (mem_insertByCountDesc x b ys).mp hb with rfl | hb
      · omega
      · exact hy b hb

theorem filter_eq_nil_of_lt (c : Nat) :
    ∀ l : List (String × Nat), (∀ b ∈ l, b.2 < c) →
      l.filter (fun e => e.2 == c) = []
  | [], _ => rfl
  | y :: ys, h => by
    have hy : (y.2 == c) = false := by
      have := h y (List.mem_cons_self y ys); simp; omega
    rw [List.filter_cons, hy]
    exact filter_eq_nil_of_lt c ys fun b hb => h b (List.mem_cons_of_mem y hb)

theorem filter_insertByCountDesc_ne (c : Nat) (x : String × Nat)
    (hx : x.2 ≠ c) :
    ∀ l : List (String × Nat),
      (insertByCountDesc x l).filter (fun e => e.2 == c) =
        l.filter (fun e => e.2 == c)
  | [] => by simp [insertByCountDesc, hx]
  | y :: ys => by
    have hx' : (x.2 == c) = false := by simpa using hx
    by_cases h : x.2 > y.2
    · rw [insertByCountDesc, if_pos h, List.filter_cons, hx']
      simp
    · rw [insertByCountDesc, if_neg h, List.filter_cons, List.filter_cons,
        filter_insertByCountDesc_ne c x hx ys]

theorem filter_insertByCountDesc_eq (c : Nat) (x : String × Nat)
    (hx : x.2 = c) :
    ∀ l : List (String × Nat), l.Pairwise (fun a b => b.2 ≤ a.2) →
      (insertByCountDesc x l).filter (fun e => e.2 == c) =
        l.filter (fun e => e.2 == c) ++ [x]
  | [], _ => by simp [insertByCountDesc, hx]
  | y :: ys, hp => by
    rcases List.pairwise_cons.mp hp with ⟨hy, hys⟩
    have hx' : (x.2 == c) = true := by simpa using hx
    by_cases h : x.2 > y.2
    · rw [insertByCountDesc, if_pos h]
      have hy' : (y.2 == c) = false := by simp; omega
      have hys' : ys.filter (fun e => e.2 == c) = [] :=
        filter_eq_nil_of_lt c ys fun b hb => by have := hy b hb; omega
      simp [List.filter_cons, hx', hy', hys']
    · rw [insertByCountDesc, if_neg h, List.filter_cons, List.filter_cons,
        filter_insertByCountDesc_eq c x hx ys hys]
      by_cases hyc : (y.2 == c) = true
      · simp [hyc]
      · simp [Bool.eq_false_iff.mpr hyc]

theorem sortFold_pairwise :
    ∀ (l acc : List (String × Nat)),
      acc.Pairwise (fun a b => b.2 ≤ a.2) →
      (l.foldl (fun acc x => insertByCountDesc x acc) acc).Pairwise
        (fun a b => b.2 ≤ a.2)
  | [], _, h => h
  | x :: xs, acc, h =>
    sortFold_pairwise xs _ (pairwise_insertByCountDesc x acc h)

theorem sortFold_perm :
    ∀ (l acc : List (String × Nat)),
      (l.foldl (fun acc x => insertByCountDesc x acc) acc).Perm (acc ++ l)
  | [], acc => by simp
  | x :: xs, acc => by
    rw [List.foldl_cons]
    refine (sortFold_perm xs _).trans ?_
    refine (((insertByCountDesc_perm x acc).append_right xs).trans ?_)
    exact List.perm_middle.symm

theorem sortFold_filter (c : Nat) :
    ∀ (l acc : List (String × Nat)),
      acc.Pairwise (fun a b => b.2 ≤ a.2) →
      (l.foldl (fun acc x => insertByCountDesc x acc) acc).filter
          (fun e => e.2 == c) =
        acc.filter (fun e => e.2 == c) ++ l.filter (fun e => e.2 == c)
  | [], acc, _ => by simp
  | x :: xs, acc, h => by
    rw [List.foldl_cons,
      sortFold_filter c xs _ (pairwise_insertByCountDesc x acc h)]
    by_cases hx : x.2 = c
    · rw [filter_insertByCountDesc_eq c x hx acc h, List.filter_cons]
      simp [hx]
    · rw [filter_insertByCountDesc_ne c x hx acc, List.filter_cons]
      have hx' : (x.2 == c) = false := by simpa using hx
      simp [hx']

theorem sortByCountDesc_pairwise (l : List (String × Nat)) :
    (sortByCountDesc l).Pairwise (fun a b => b.2 ≤ a.2) :=
  sortFold_pairwise l [] List.Pairwise.nil

theorem sortByCountDesc_perm (l : List (String × Nat)) :
    (sortByCountDesc l).Perm l := by
  simpa using sortFold_perm l []

theorem sortByCountDesc_filter (c : Nat) (l : List (String × Nat)) :
    (sortByCountDesc l).filter (fun e => e.2 == c) =
      l.filter (fun e => e.2 == c) := by
  simpa using sortFold_filter c l [] List.Pairwise.nil

end StorageManager

/-- C9: `topLanguages` keeps at most five entries, in descending occurrence
count; the underlying sort is a permutation of the first-encounter count
list, and within any fixed count the surviving entries are an initial run of
that count's entries in first-encounter order (stability of the sort, ties
broken by first encounter). -/
theorem c9_top_languages (l : List AIInteraction) :
    (StorageManager.topLanguages l).length ≤ 5 ∧
    (StorageManager.topLanguages l).Pairwise (fun a b => b.2 ≤ a.2) ∧
    (StorageManager.sortByCountDesc (StorageManager.languageCounts l)).Perm
      (StorageManager.languageCounts l) ∧
    ∀ c : Nat,
      (StorageManager.topLanguages l).filter (fun e => e.2 == c) <+:
        (StorageManager.languageCounts l).filter (fun e => e.2 == c) := by
  refine ⟨?_, ?_, StorageManager.sortByCountDesc_perm _, ?_⟩
  · exact List.length_take_le 5 _
  · exact List.Pairwise.sublist (List.take_sublist 5 _)
      (StorageManager.sortByCountDesc_pairwise _)
  · intro c
    have hpre : StorageManager.topLanguages l <+:
        StorageManager.sortByCountDesc (StorageManager.languageCounts l) :=
      ⟨(StorageManager.sortByCountDesc
          (StorageManager.languageCounts l)).drop 5,
        List.take_append_drop 5 _⟩
    have hfil := hpre.filter (fun e => e.2 == c)
    rwa [StorageManager.sortByCountDesc_filter c] at hfil

/-- C10: a `toolInvocationSerialized` part contributes exactly its
past-tense message value (nothing when that is absent or not a string),
whatever its top-level `value`/`text` fields hold; a `markdown` part
contributes exactly its nested content values; neither falls through to the
generic fallback; and the recovered chunks are joined with a blank line and
trimmed — shown both in general and on concrete parts. -/
theorem c10_response_extraction (pm : Option (Option String))
    (cont : Option (List (Option String))) (v t : Option String) :
    CopilotChatMonitor.partChunks
        ⟨some "toolInvocationSerialized", pm, cont, v, t⟩ =
      (match pm with
       | some (some s) => [s]
       | _ => []) ∧
    CopilotChatMonitor.partChunks ⟨some "markdown", pm, cont, v, t⟩ =
      (match cont with
       | some entries => entries.filterMap id
       | none => []) ∧
    (∀ parts, CopilotChatMonitor.extractResponseText parts =
      jsTrim (jsJoin "\n\n"
        (parts.map CopilotChatMonitor.partChunks).flatten)) ∧
    CopilotChatMonitor.extractResponseText
      [⟨some "toolInvocationSerialized", some none, none,
        some "IGNORED", some "ALSO"⟩] = "" ∧
    CopilotChatMonitor.extractResponseText
      [⟨some "markdown", none, some [some "alpha", none, some "beta"],
        none, none⟩,
       ⟨some "toolInvocationSerialized", some (some "ran tool"), none,
        none, none⟩,
       ⟨none, none, none, none, some "tail"⟩] =
      "alpha\n\nbeta\n\nran tool\n\ntail" := by
  refine ⟨rfl, rfl, fun parts => rfl, by decide, by decide⟩

namespace CopilotChatMonitor

theorem contains_mem {s : List String} {k : String} :
    s.contains k = true ↔ k ∈ s := List.elem_iff

theorem setAdd_extends (s : List String) (k : String) : s <+: setAdd s k := by
  unfold setAdd
  by_cases h : s.contains k = true
  · rw [if_pos h]
  · rw [if_neg h]
    exact ⟨[k], rfl⟩

theorem length_setAdd (s : List String) (k : String) :
    (setAdd s k).length ≤ s.length + 1 := by
  unfold setAdd
  split <;> simp

theorem mem_setAdd_self (s : List String) (k : String) : k ∈ setAdd s k := by
  unfold setAdd
  by_cases h : s.contains k = true
  · rw [if_pos h]
    exact contains_mem.mp h
  · rw [if_neg h]
    exact List.mem_append_right s (List.mem_singleton_self k)

theorem cull_of_le {s : List String} (h : s.length ≤ 5000) :
    cullProcessed s = s := by
  unfold cullProcessed
  rw [if_pos h]

theorem requestKey_some (fn : String) (st : MonitorState) (r : ChatRequest)
    (rid : String) (hr : r.requestId = some rid) :
    requestKey fn st r = (fn ++ ":" ++ rid, st) := by
  unfold requestKey
  rw [hr]

theorem requestKey_processed (fn : String) (st : MonitorState)
    (r : ChatRequest) : (requestKey fn st r).2.processed = st.processed := by
  unfold requestKey
  cases r.requestId <;> rfl

theorem processRequest_state (fn fp : String) (doc : ChatDoc) (now : Int)
    (st : MonitorState) (r : ChatRequest)
    (hlen : st.processed.length + 1 ≤ 5000) :
    st.processed <+: (processRequest fn fp doc now st r).1.processed ∧
    (processRequest fn fp doc now st r).1.processed.length ≤
      st.processed.length + 1 := by
  unfold processRequest
  rcases hk : requestKey fn st r with ⟨key, st1⟩
  have hst1 : st1.processed = st.processed := by
    have h := requestKey_processed fn st r
    rw [hk] at h
    exact h
  simp only [hk]
  by_cases hc : st1.processed.contains key = true
  · rw [if_pos hc, hst1]
    exact ⟨List.prefix_refl _, by omega⟩
  · rw [if_neg hc]
    split
    · rw [hst1]
      exact ⟨setAdd_extends _ _, length_setAdd _ _⟩
    · rw [hst1, cull_of_le (le_trans (length_setAdd _ _) hlen)]
      exact ⟨setAdd_extends _ _, length_setAdd _ _⟩

theorem processRequest_marks (fn fp : String) (doc : ChatDoc) (now : Int)
    (st : MonitorState) (r : ChatRequest) (rid : String)
    (hr : r.requestId = some rid) (hlen : st.processed.length + 1 ≤ 5000) :
    (fn ++ ":" ++ rid) ∈ (processRequest fn fp doc now st r).1.processed := by
  unfold processRequest
  simp only [requestKey_some fn st r rid hr]
  by_cases hc : st.processed.contains (fn ++ ":" ++ rid) = true
  · rw [if_pos hc]
    exact contains_mem.mp hc
  · rw [if_neg hc]
    split
    · exact mem_setAdd_self _ _
    · show _ ∈ cullProcessed (setAdd st.processed (fn ++ ":" ++ rid))
      rw [cull_of_le (le_trans (length_setAdd _ _) hlen)]
      exact mem_setAdd_self _ _

theorem processRequest_skip (fn fp : String) (doc : ChatDoc) (now : Int)
    (st : MonitorState) (r : ChatRequest) (rid : String)
    (hr : r.requestId = some rid)
    (hmem : (fn ++ ":" ++ rid) ∈ st.processed) :
    processRequest fn fp doc now st r = (st, []) := by
  unfold processRequest
  simp only [requestKey_some fn st r rid hr]
  rw [if_pos (contains_mem.mpr hmem)]

theorem runReqs_state (fn fp : String) (doc : ChatDoc) (now : Int) :
    ∀ (reqs : List ChatRequest) (st : MonitorState),
      st.processed.length + reqs.length ≤ 5000 →
      st.processed <+: (runReqs fn fp doc now st reqs).1.processed ∧
      (runReqs fn fp doc now st reqs).1.processed.length ≤
        st.processed.length + reqs.length
  | [], st, _ => ⟨List.prefix_refl _, by simp [runReqs]⟩
  | r :: rs, st, h => by
    simp only [runReqs]
    have h1 : st.processed.length + 1 ≤ 5000 := by
      simp only [List.length_cons] at h
      omega
    obtain ⟨hp1, hl1⟩ := processRequest_state fn fp doc now st r h1
    have h2 : (processRequest fn fp doc now st r).1.processed.length +
        rs.length ≤ 5000 := by
      simp only [List.length_cons] at h
      omega
    obtain ⟨hp2, hl2⟩ :=
      runReqs_state fn fp doc now rs (processRequest fn fp doc now st r).1 h2
    refine ⟨hp1.trans hp2, ?_⟩
    simp only [List.length_cons]
    omega

theorem runReqs_marks (fn fp : String) (doc : ChatDoc) (now : Int) :
    ∀ (reqs : List ChatRequest) (st : MonitorState),
      st.processed.length + reqs.length ≤ 5000 →
      ∀ r ∈ reqs, ∀ rid : String, r.requestId = some rid →
        (fn ++ ":" ++ rid) ∈ (runReqs fn fp doc now st reqs).1.processed
  | [], _, _, r, hmem, _, _ => absurd hmem (List.not_mem_nil r)
  | r0 :: rs, st, h, r, hmem, rid, hrid => by
    simp only [runReqs]
    have h1 : st.processed.length + 1 ≤ 5000 := by
      simp only [List.length_cons] at h
      omega
    obtain ⟨hp1, hl1⟩ := processRequest_state fn fp doc now st r0 h1
    have h2 : (processRequest fn fp doc now st r0).1.processed.length +
        rs.length ≤ 5000 := by
      simp only [List.length_cons] at h
      omega
    rcases List.mem_cons.mp hmem with rfl | hmem2
    · have hmark := processRequest_marks fn fp doc now st r rid hrid h1
      exact ((runReqs_state fn fp doc now rs _ h2).1).subset hmark
    · exact runReqs_marks fn fp doc now rs _ h2 r hmem2 rid hrid

theorem runReqs_skip (fn fp : String) (doc : ChatDoc) (now : Int) :
    ∀ (reqs : List ChatRequest) (st : MonitorState),
      (∀ r ∈ reqs, ∃ rid : String, r.requestId = some rid ∧
        (fn ++ ":" ++ rid) ∈ st.processed) →
      runReqs fn fp doc now st reqs = (st, [])
  | [], _, _ => rfl
  | r :: rs, st, hall => by
    obtain ⟨rid, hrid, hmem⟩ := hall r (List.mem_cons_self r rs)
    have hskip := processRequest_skip fn fp doc now st r rid hrid hmem
    have hrest := runReqs_skip fn fp doc now rs st
      (fun q hq => hall q (List.mem_cons_of_mem r hq))
    simp [runReqs, hskip, hrest]

theorem foldl_runReqs (fn fp : String) (doc : ChatDoc) (now : Int) :
    ∀ (reqs : List ChatRequest) (st : MonitorState)
      (em : List AIInteraction),
      reqs.foldl
        (fun acc r =>
          let out := processRequest fn fp doc now acc.1 r
          (out.1, acc.2 ++ out.2)) (st, em) =
      ((runReqs fn fp doc now st reqs).1,
        em ++ (runReqs fn fp doc now st reqs).2)
  | [], st, em => by simp [runReqs]
  | r :: rs, st, em => by
    rw [List.foldl_cons]
    show (rs.foldl _ (_, em ++ _)) = _
    rw [foldl_runReqs fn fp doc now rs _ _]
    simp [runReqs, List.append_assoc]

theorem processSession_noDoc (dir : String) (now : Int) (st : MonitorState)
    (f : ChatFile) (h : f.doc = none) :
    processSession dir now st f = (st, []) := by
  simp only [processSession, h]

theorem processSession_noReqs (dir : String) (now : Int) (st : MonitorState)
    (f : ChatFile) (doc : ChatDoc) (hdoc : f.doc = some doc)
    (h : doc.requests = none) :
    processSession dir now st f = (st, []) := by
  simp only [processSession, hdoc, h]

theorem processSession_eq_runReqs (dir : String) (now : Int)
    (st : MonitorState) (f : ChatFile) (doc : ChatDoc)
    (reqs : List ChatRequest) (hdoc : f.doc = some doc)
    (hreqs : doc.requests = some reqs) :
    processSession dir now st f =
      runReqs f.name (dir ++ "/" ++ f.name) doc now st reqs := by
  simp only [processSession, hdoc, hreqs, foldl_runReqs]
  simp

theorem processSession_state (dir : String) (now : Int) (st : MonitorState)
    (f : ChatFile) (hlen : st.processed.length + fileReqCount f ≤ 5000) :
    st.processed <+: (processSession dir now st f).1.processed ∧
    (processSession dir now st f).1.processed.length ≤
      st.processed.length + fileReqCount f := by
  rcases hdoc : f.doc with _ | doc
  · rw [processSession_noDoc dir now st f hdoc]
    exact ⟨List.prefix_refl _, by simp⟩
  · rcases hreqs : doc.requests with _ | reqs
    · rw [processSession_noReqs dir now st f doc hdoc hreqs]
      exact ⟨List.prefix_refl _, by simp⟩
    · rw [processSession_eq_runReqs dir now st f doc reqs hdoc hreqs]
      have hfc : fileReqCount f = reqs.length := by
        simp [fileReqCount, hdoc, hreqs]
      rw [hfc] at hlen ⊢
      exact runReqs_state _ _ doc now reqs st hlen

theorem processSession_marks (dir : String) (now : Int) (st : MonitorState)
    (f : ChatFile) (doc : ChatDoc) (reqs : List ChatRequest)
    (r : ChatRequest) (rid : String) (hdoc : f.doc = some doc)
    (hreqs : doc.requests = some reqs) (hr : r ∈ reqs)
    (hrid : r.requestId = some rid)
    (hlen : st.processed.length + fileReqCount f ≤ 5000) :
    (f.name ++ ":" ++ rid) ∈ (processSession dir now st f).1.processed := by
  rw [processSession_eq_runReqs dir now st f doc reqs hdoc hreqs]
  have hfc : fileReqCount f = reqs.length := by
    simp [fileReqCount, hdoc, hreqs]
  rw [hfc] at hlen
  exact runReqs_marks _ _ doc now reqs st hlen r hr rid hrid

theorem processSession_skip (dir : String) (now : Int) (st : MonitorState)
    (f : ChatFile)
    (hall : ∀ doc reqs, f.doc = some doc → doc.requests = some reqs →
      ∀ r ∈ reqs, ∃ rid : String, r.requestId = some rid ∧
        (f.name ++ ":" ++ rid) ∈ st.processed) :
    processSession dir now st f = (st, []) := by
  rcases hdoc : f.doc with _ | doc
  · exact processSession_noDoc dir now st f hdoc
  · rcases hreqs : doc.requests with _ | reqs
    · exact processSession_noReqs dir now st f doc hdoc hreqs
    · rw [processSession_eq_runReqs dir now st f doc reqs hdoc hreqs]
      exact runReqs_skip _ _ doc now reqs st (hall doc reqs hdoc hreqs)

theorem runFiles_state (dir : String) (now : Int) :
    ∀ (fs : List ChatFile) (st : MonitorState),
      st.processed.length + (fs.map fileReqCount).sum ≤ 5000 →
      st.processed <+: (runFiles dir now st fs).1.processed ∧
      (runFiles dir now st fs).1.processed.length ≤
        st.processed.length + (fs.map fileReqCount).sum
  | [], st, _ => ⟨List.prefix_refl _, by simp [runFiles]⟩
  | f :: fs, st, h => by
    simp only [runFiles]
    have h1 : st.processed.length + fileReqCount f ≤ 5000 := by
      simp only [List.map_cons, List.sum_cons] at h
      omega
    obtain ⟨hp1, hl1⟩ := processSession_state dir now st f h1
    have h2 : (processSession dir now st f).1.processed.length +
        (fs.map fileReqCount).sum ≤ 5000 := by
      simp only [List.map_cons, List.sum_cons] at h
      omega
    obtain ⟨hp2, hl2⟩ :=
      runFiles_state dir now fs (processSession dir now st f).1 h2
    refine ⟨hp1.trans hp2, ?_⟩
    simp only [List.map_cons, List.sum_cons]
    omega

theorem runFiles_marks (dir : String) (now : Int) :
    ∀ (fs : List ChatFile) (st : MonitorState),
      st.processed.length + (fs.map fileReqCount).sum ≤ 5000 →
      ∀ f ∈ fs, ∀ (doc : ChatDoc) (reqs : List ChatRequest)
        (r : ChatRequest) (rid : String), f.doc = some doc →
        doc.requests = some reqs → r ∈ reqs → r.requestId = some rid →
        (f.name ++ ":" ++ rid) ∈ (runFiles dir now st fs).1.processed
  | [], _, _, f, hf, _, _, _, _, _, _, _, _ =>
      absurd hf (List.not_mem_nil f)
  | f0 :: fs, st, h, f, hf, doc, reqs, r, rid, hdoc, hreqs, hr, hrid => by
    simp only [runFiles]
    have h1 : st.processed.length + fileReqCount f0 ≤ 5000 := by
      simp only [List.map_cons, List.sum_cons] at h
      omega
    obtain ⟨hp1, hl1⟩ := processSession_state dir now st f0 h1
    have h2 : (processSession dir now st f0).1.processed.length +
        (fs.map fileReqCount).sum ≤ 5000 := by
      simp only [List.map_cons, List.sum_cons] at h
      omega
    rcases List.mem_cons.mp hf with rfl | hf2
    · have hmark := processSession_marks dir now st f doc reqs r rid hdoc
        hreqs hr hrid h1
      exact ((runFiles_state dir now fs _ h2).1).subset hmark
    · exact runFiles_marks dir now fs _ h2 f hf2 doc reqs r rid hdoc hreqs
        hr hrid

theorem runFiles_skip (dir : String) (now : Int) :
    ∀ (fs : List ChatFile) (st : MonitorState),
      (∀ f ∈ fs, ∀ doc reqs, f.doc = some doc →
        doc.requests = some reqs → ∀ r ∈ reqs,
          ∃ rid : String, r.requestId = some rid ∧
            (f.name ++ ":" ++ rid) ∈ st.processed) →
      runFiles dir now st fs = (st, [])
  | [], _, _ => rfl
  | f :: fs, st, hall => by
    have hskip := processSession_skip dir now st f
      (fun doc reqs hdoc hreqs =>
        hall f (List.mem_cons_self f fs) doc reqs hdoc hreqs)
    have hrest := runFiles_skip dir now fs st
      (fun g hg => hall g (List.mem_cons_of_mem f hg))
    simp [runFiles, hskip, hrest]

theorem foldl_runFiles (dir : String) (now : Int) :
    ∀ (fs : List ChatFile) (st : MonitorState) (em : List AIInteraction),
      fs.foldl
        (fun acc f =>
          let out := processSession dir now acc.1 f
          (out.1, acc.2 ++ out.2)) (st, em) =
      ((runFiles dir now st fs).1, em ++ (runFiles dir now st fs).2)
  | [], st, em => by simp [runFiles]
  | f :: fs, st, em => by
    rw [List.foldl_cons]
    show (fs.foldl _ (_, em ++ _)) = _
    rw [foldl_runFiles dir now fs _ _]
    simp [runFiles, List.append_assoc]

theorem scanSessions_eq_runFiles (dir : String) (now : Int)
    (files : List ChatFile) (st : MonitorState) :
    scanSessions dir now files st =
      runFiles dir now st
        (files.filter fun f => jsEndsWith f.name ".json") := by
  unfold scanSessions
  rw [foldl_runFiles]
  simp

end CopilotChatMonitor

/-- C1 counterexample: a transcript file whose single request record has no
`requestId` (but a nonempty prompt) is re-emitted by the second scan of the
unchanged directory — the generated identifier is a fresh `randomUUID()` on
every scan, so the processed-key check never matches. -/
theorem c1_dedup_counterexample :
    (CopilotChatMonitor.scanSessions "d" 0
      [⟨"chat.json", some ⟨none, none, none,
        some [⟨none, some "hi", none, none, none⟩]⟩⟩]
      (CopilotChatMonitor.scanSessions "d" 0
        [⟨"chat.json", some ⟨none, none, none,
          some [⟨none, some "hi", none, none, none⟩]⟩⟩]
        CopilotChatMonitor.initialMonitorState).1).2 ≠ [] := by
  decide

/-- C1 amended: dedup idempotence holds for request records that carry a
`requestId`: starting from a fresh monitor, if every record of the directory
has a `requestId` and the directory holds at most 5000 records (so the
processed-key cap never evicts), the second scan of the unchanged directory
emits zero Interactions.  (A record without a `requestId` is keyed by a
fresh generated identifier on every scan and is re-emitted whenever its
prompt or response is nonempty.) -/
theorem c1_dedup_idempotent (dir : String) (now1 now2 : Int)
    (files : List CopilotChatMonitor.ChatFile)
    (hid : ∀ f ∈ files, ∀ doc, f.doc = some doc →
      ∀ reqs, doc.requests = some reqs →
        ∀ r ∈ reqs, r.requestId.isSome = true)
    (hcount : CopilotChatMonitor.totalRequests files ≤ 5000) :
    (CopilotChatMonitor.scanSessions dir now2 files
      (CopilotChatMonitor.scanSessions dir now1 files
        CopilotChatMonitor.initialMonitorState).1).2 = [] := by
  rw [CopilotChatMonitor.scanSessions_eq_runFiles,
    CopilotChatMonitor.scanSessions_eq_runFiles]
  have hlen0 : (CopilotChatMonitor.initialMonitorState).processed.length +
      (((files.filter fun f => jsEndsWith f.name ".json").map
        CopilotChatMonitor.fileReqCount).sum) ≤ 5000 := by
    simpa [CopilotChatMonitor.initialMonitorState,
      CopilotChatMonitor.totalRequests] using hcount
  have hmarks : ∀ f ∈ (files.filter fun f => jsEndsWith f.name ".json"),
      ∀ doc reqs, f.doc = some doc → doc.requests = some reqs →
        ∀ r ∈ reqs, ∃ rid : String, r.requestId = some rid ∧
          (f.name ++ ":" ++ rid) ∈
            (CopilotChatMonitor.runFiles dir now1
              CopilotChatMonitor.initialMonitorState
              (files.filter fun f =>
                jsEndsWith f.name ".json")).1.processed := by
    intro f hf doc reqs hdoc hreqs r hr
    have hsome := hid f (List.mem_of_mem_filter hf) doc hdoc reqs hreqs r hr
    obtain ⟨rid, hrid⟩ := Option.isSome_iff_exists.mp hsome
    exact ⟨rid, hrid,
      CopilotChatMonitor.runFiles_marks dir now1 _ _ hlen0 f hf doc reqs
        r rid hdoc hreqs hr hrid⟩
  rw [CopilotChatMonitor.runFiles_skip dir now2 _ _ hmarks]

/-- Witness for the amended C1: one transcript file with one
`requestId`-bearing request record; the second scan emits nothing. -/
theorem c1_dedup_idempotent_witness :
    (CopilotChatMonitor.scanSessions "d" 0
      [⟨"chat.json", some ⟨none, none, none,
        some [⟨some "r1", some "hi", none, none, none⟩]⟩⟩]
      (CopilotChatMonitor.scanSessions "d" 0
        [⟨"chat.json", some ⟨none, none, none,
          some [⟨some "r1", some "hi", none, none, none⟩]⟩⟩]
        CopilotChatMonitor.initialMonitorState).1).2 = [] :=
  c1_dedup_idempotent "d" 0 0
    [⟨"chat.json", some ⟨none, none, none,
      some [⟨some "r1", some "hi", none, none, none⟩]⟩⟩]
    (by
      intro f hf doc hdoc reqs hreqs r hr
      rw [List.mem_singleton] at hf
      subst hf
      simp only [CopilotChatMonitor.ChatFile.doc, Option.some.injEq] at hdoc
      subst hdoc
      simp only [Option.some.injEq] at hreqs
      subst hreqs
      rw [List.mem_singleton] at hr
      subst hr
      rfl)
    (by decide)

end AIObserver
